import Mathlib

/-!
Shallow embedding of the task-orchestration core of `vanilla-agents`
(`src/vanilla-task-advanced.js`, second — most complete — variant,
lines 127-246): classes `Tool`, `Task`, `CustomProcess`, `Agent`.

Modelling conventions:
  * JavaScript runtime values flowing between tasks and tools are `JSVal`
    (strings, `null`, and `Error` objects carrying a message).
  * A thrown exception is `Except.error msg`.
  * `Tool` objects are shared by reference; we model the object graph as a
    heap `Heap := List ToolObj`, a reference being an index into it.
  * Asynchronous code in the source awaits every call site immediately, so
    each method is modelled as a state-threading function on the heap and
    on the `CustomProcess` record.
-/

set_option autoImplicit false

namespace VanillaAgents

/-- A JavaScript value as used by the orchestration core: a string result,
`null`, or an `Error` object (identified by its message). -/
inductive JSVal where
  | js_str (s : String)
  | js_null
  | js_err (msg : String)
  deriving DecidableEq, Repr

/-- A `Tool` object (source lines 127-137): `name`, wrapped `operation`
(which may throw), and the mutable counter `usageCount` (starts at 0). -/
structure ToolObj where
  name : String
  operation : JSVal → Except String JSVal
  usageCount : Nat

/-- The heap of shared `Tool` objects; a tool reference is an index. -/
abbrev Heap := List ToolObj

/-- `Tool.run(input) { return this.operation(input); }` (line 134-136):
invokes the wrapped operation, nothing else. -/
def ToolObj.run (t : ToolObj) (input : JSVal) : Except String JSVal :=
  t.operation input

/-- Heap-threading form of `Tool.run` for a tool reference: the body of
`run` performs no assignment, so the heap passes through unchanged; a
dangling reference would be the JavaScript `TypeError`. -/
def ToolObj.runH (σ : Heap) (r : Nat) (input : JSVal) :
    Except String JSVal × Heap :=
  match List.get? σ r with
  | some t => (t.run input, σ)
  | none => (Except.error "TypeError", σ)

/-- A `Task` object (source lines 139-174): identifier, description, base
operation `runFunction` (may throw), list of tool references, per-task
limit map `toolLimits` (a JavaScript object: lookup of an absent key is
`undefined`), and the `critical` flag. -/
structure Task where
  taskId : String
  description : String
  runFunction : JSVal → Except String JSVal
  tools : List Nat
  toolLimits : List (String × Nat)
  critical : Bool

/-- `this.toolLimits[toolName]`: first binding for the name, if any. -/
def lookupLimit (limits : List (String × Nat)) (toolName : String) :
    Option Nat :=
  match limits.find? (fun p => p.fst == toolName) with
  | some p => some p.snd
  | none => none

/-- `setToolLimit(toolName, limit) { this.toolLimits[toolName] = limit; }`
(lines 171-173): overwrites the binding (the front binding shadows). -/
def Task.setToolLimit (t : Task) (toolName : String) (limit : Nat) : Task :=
  { t with toolLimits := (toolName, limit) :: t.toolLimits }

/-- The guard `this.toolLimits[toolName] && this.toolLimits[toolName] <=
tool.usageCount` (line 154): an absent limit is `undefined` (falsy) and a
limit of `0` is falsy, so neither blocks; otherwise the call is blocked
when the usage count has reached the limit. -/
def limitBlocks (limits : List (String × Nat)) (toolName : String)
    (count : Nat) : Bool :=
  match lookupLimit limits toolName with
  | some l => l != 0 && decide (l ≤ count)
  | none => false

/-- `this.tools.find(tool => tool.name === toolName)` (line 150): first
tool reference in the task's list whose object has the given name. -/
def findTool (σ : Heap) (refs : List Nat) (toolName : String) :
    Option (Nat × ToolObj) :=
  refs.findSome? (fun r =>
    match List.get? σ r with
    | some t => if t.name == toolName then some (r, t) else none
    | none => none)

/-- Overwrite the object at reference `r`. -/
def heapSet (σ : Heap) (r : Nat) (t : ToolObj) : Heap :=
  List.set σ r t

/-- `Task.useTool(toolName, input)` second variant (lines 149-159):
look the tool up by name (throw if absent), throw `Usage limit exceeded`
if the configured limit blocks — without touching `usageCount` —
otherwise increment `usageCount` and delegate to `Tool.run`. -/
def Task.useTool (t : Task) (σ : Heap) (toolName : String) (input : JSVal) :
    Except String JSVal × Heap :=
  match findTool σ t.tools toolName with
  | none => (Except.error ("No tool found with name: " ++ toolName), σ)
  | some (r, tool) =>
    if limitBlocks t.toolLimits toolName tool.usageCount then
      (Except.error ("Usage limit exceeded for tool: " ++ tool.name
        ++ " in task: " ++ t.description), σ)
    else
      (tool.run input, heapSet σ r { tool with usageCount := tool.usageCount + 1 })

/-- The loop `for (const tool of this.tools) { result = await
this.useTool(tool.name, result); }` of `Task.execute` (lines 164-166):
each tool's output becomes the next tool's input; a throw propagates. -/
def Task.executeTools (t : Task) : List Nat → Heap → JSVal →
    Except String JSVal × Heap
  | [], σ, v => (Except.ok v, σ)
  | r :: rs, σ, v =>
    match List.get? σ r with
    | none => (Except.error "TypeError", σ)
    | some tool =>
      match t.useTool σ tool.name v with
      | (Except.ok v2, σ2) => Task.executeTools t rs σ2 v2
      | (Except.error e, σ2) => (Except.error e, σ2)

/-- `Task.execute(input = null)` (lines 161-169): await
`runFunction(input)`, then thread the result through the tools in list
order; errors propagate uncaught. -/
def Task.execute (t : Task) (σ : Heap) (input : JSVal) :
    Except String JSVal × Heap :=
  match t.runFunction input with
  | Except.error e => (Except.error e, σ)
  | Except.ok v => Task.executeTools t t.tools σ v

/-- A `CustomProcess` object (lines 176-239): name, ordered task list,
mode flag, and the two append-only logs. -/
structure CustomProcess where
  name : String
  tasks : List Task
  isParallel : Bool
  executionHistory : List String
  failures : List String

/-- The history marker `executionHistory.push("Task executed: " +
task.description)` (line 207). -/
def markerOf (t : Task) : String :=
  "Task executed: " ++ t.description

/-- The failure log entry of line 211. -/
def failureMsg (p : CustomProcess) (e : String) : String :=
  "Failure in process " ++ p.name ++ ": " ++ e

/-- `CustomProcess.executeTask(task, input = null)` (lines 204-218): await
`task.execute(input)`; on success push the history marker and return the
result; on a throw push a failure entry and return `null` when the task
is critical, the error object otherwise. No exception escapes. -/
def CustomProcess.executeTask (p : CustomProcess) (σ : Heap) (t : Task)
    (input : JSVal) : JSVal × Heap × CustomProcess :=
  match t.execute σ input with
  | (Except.ok r, σ2) =>
    (r, σ2, { p with executionHistory := p.executionHistory ++ [markerOf t] })
  | (Except.error e, σ2) =>
    let p2 := { p with failures := p.failures ++ [failureMsg p e] }
    if t.critical then (JSVal.js_null, σ2, p2) else (JSVal.js_err e, σ2, p2)

/-- The sequential loop of `CustomProcess.run` (lines 191-199): tasks one
at a time in list order, the previous settled result as next input;
`if (result === null && task.critical) break;` before the push. -/
def runSeqAux (σ : Heap) (p : CustomProcess) (prev : JSVal) :
    List Task → List JSVal × Heap × CustomProcess
  | [] => ([], σ, p)
  | t :: ts =>
    let s := p.executeTask σ t prev
    if s.fst = JSVal.js_null ∧ t.critical = true then ([], s.snd.fst, s.snd.snd)
    else
      let rest := runSeqAux s.snd.fst s.snd.snd s.fst ts
      (s.fst :: rest.fst, rest.snd.fst, rest.snd.snd)

/-- One scheduled step list of the parallel branch
`Promise.all(this.tasks.map(task => this.executeTask(task)))` (line 189):
the scheduler runs the launched `executeTask(task_i)` calls (input
`null`) in the order given by `sched`; each produces the pair
`(i, settled value)`. `Promise.all` then places value `i` at position
`i`, whatever the completion order. -/
def runParAux (σ : Heap) (p : CustomProcess) (tasks : List Task) :
    List Nat → List (Nat × JSVal) × Heap × CustomProcess
  | [] => ([], σ, p)
  | i :: rest =>
    match List.get? tasks i with
    | none => runParAux σ p tasks rest
    | some t =>
      let s := p.executeTask σ t JSVal.js_null
      let r := runParAux s.snd.fst s.snd.snd tasks rest
      ((i, s.fst) :: r.fst, r.snd.fst, r.snd.snd)

/-- Reassemble the `Promise.all` results array from the settled pairs:
position `i` of the output holds task `i`'s settled value. -/
def assemble (n : Nat) (entries : List (Nat × JSVal)) : List JSVal :=
  (List.range n).map (fun i =>
    match entries.find? (fun e => e.fst == i) with
    | some e => e.snd
    | none => JSVal.js_null)

/-- Parallel-mode `run` under an explicit completion schedule. -/
def runParallel (σ : Heap) (p : CustomProcess) (sched : List Nat) :
    List JSVal × Heap × CustomProcess :=
  let r := runParAux σ p p.tasks sched
  (assemble p.tasks.length r.fst, r.snd.fst, r.snd.snd)

/-- `CustomProcess.run()` (lines 185-202): parallel mode launches every
task and collects results in task-list order (canonical in-order
schedule); sequential mode folds the tasks with `previousResult`
starting at `null`. -/
def CustomProcess.run (p : CustomProcess) (σ : Heap) :
    List JSVal × Heap × CustomProcess :=
  if p.isParallel then runParallel σ p (List.range p.tasks.length)
  else runSeqAux σ p JSVal.js_null p.tasks

/-- `Agent.executeProcess(process)` (lines 241-246): delegate to
`process.run()` and return its results unchanged. -/
def Agent.executeProcess (p : CustomProcess) (σ : Heap) :
    List JSVal × Heap × CustomProcess :=
  p.run σ

/-! ### Derived notions used by the statements -/

/-- Whether an `Except` value is a throw. -/
def isThrow : Except String JSVal → Bool
  | Except.error _ => true
  | Except.ok _ => false

/-- Whether a `JSVal` is an `Error` object. -/
def isErrVal : JSVal → Bool
  | JSVal.js_err _ => true
  | _ => false

/-- The usage count stored at reference `r` (0 for a dangling reference). -/
def usageAt (σ : Heap) (r : Nat) : Nat :=
  match List.get? σ r with
  | some t => t.usageCount
  | none => 0

/-- The name stored at reference `r`, if valid. -/
def nameAt (σ : Heap) (r : Nat) : Option String :=
  (List.get? σ r).map ToolObj.name

/-- The settled value `CustomProcess.executeTask` hands back for one task:
the task's own result on success, and on a throw `null` for a critical
task, the error object otherwise (lines 204-218). -/
def settledValue (σ : Heap) (t : Task) (input : JSVal) : JSVal :=
  match t.execute σ input with
  | (Except.ok r, _) => r
  | (Except.error e, _) => if t.critical then JSVal.js_null else JSVal.js_err e

/-- The pure value pipeline of `Task.execute`'s tool loop, read off the
operations of a fixed heap: each tool's output becomes the next one's
input, in list order. -/
def chainOps (σ : Heap) : List Nat → JSVal → Except String JSVal
  | [], v => Except.ok v
  | r :: rs, v =>
    match List.get? σ r with
    | none => Except.error "TypeError"
    | some tool =>
      match tool.operation v with
      | Except.ok v2 => chainOps σ rs v2
      | Except.error e => Except.error e

/-- Two heaps with the same tools (names and operations), the usage
counters possibly differing: the relation preserved by the bumps
`useTool` performs. -/
def agreeOn (σ σ' : Heap) : Prop :=
  σ'.length = σ.length ∧
  ∀ r : Nat, nameAt σ' r = nameAt σ r ∧
    (List.get? σ' r).map ToolObj.operation = (List.get? σ r).map ToolObj.operation

/-- Per-attempt record of the sequential trace: the input handed to the
task, the settled value, the task's description and criticality. -/
structure StepRec where
  input : JSVal
  output : JSVal
  desc : String
  crit : Bool

/-- A step is pushed onto `results` unless it triggers the break
`result === null && task.critical` (line 194). -/
def pushedB (s : StepRec) : Bool :=
  !(s.output == JSVal.js_null && s.crit)

/-- Instrumented form of the sequential loop: same control flow as
`runSeqAux`, additionally recording, for every attempted task, the input
it received and the value it settled to. -/
def runSeqTrace (σ : Heap) (p : CustomProcess) (prev : JSVal) :
    List Task → List StepRec × Heap × CustomProcess
  | [] => ([], σ, p)
  | t :: ts =>
    let s := p.executeTask σ t prev
    let st : StepRec := ⟨prev, s.fst, t.description, t.critical⟩
    if s.fst = JSVal.js_null ∧ t.critical = true then
      ([st], s.snd.fst, s.snd.snd)
    else
      let r := runSeqTrace s.snd.fst s.snd.snd s.fst ts
      (st :: r.fst, r.snd.fst, r.snd.snd)

/-- Consecutive steps of a trace are chained: each attempted task received
exactly the value the previous attempted task settled to. -/
def Chained : JSVal → List StepRec → Prop
  | _, [] => True
  | prev, s :: rest => s.input = prev ∧ Chained s.output rest

/-- Repeated invocation of one tool through `useTool` with a fixed input,
stopping at the first throw. -/
def useRepeatedly (t : Task) (toolName : String) (v : JSVal) :
    Nat → Heap → Option Heap
  | 0, σ => some σ
  | n + 1, σ =>
    match t.useTool σ toolName v with
    | (Except.ok _, σ2) => useRepeatedly t toolName v n σ2
    | (Except.error _, _) => none

/-! ### Concrete fixtures (the demo objects of the spec's scenarios) -/

/-- The demo tool operation: `text => text.toUpperCase()` (line 249),
per-character ASCII uppercasing. -/
def upperOp : JSVal → Except String JSVal
  | JSVal.js_str s => Except.ok (JSVal.js_str (String.mk (s.data.map Char.toUpper)))
  | _ => Except.error "TypeError: toUpperCase is not a function"

/-- Build a task with no limits configured. -/
def mkTask (id d : String) (f : JSVal → Except String JSVal)
    (tools : List Nat) (crit : Bool) : Task :=
  ⟨id, d, f, tools, [], crit⟩

/-- Heap holding the `UPPER` tool with usage count `c`. -/
def heapUC (c : Nat) : Heap := [⟨"UPPER", upperOp, c⟩]

/-- Heap holding the fresh `UPPER` tool. -/
def heapU : Heap := heapUC 0

/-- Scenario C, task 1: succeeds with `"one done"`. -/
def tOne : Task :=
  mkTask "id_1" "one" (fun _ => Except.ok (JSVal.js_str "one done")) [] false

/-- Scenario C, task 2: critical, throws `"boom"`. -/
def tBoom : Task :=
  mkTask "id_2" "two" (fun _ => Except.error "boom") [] true

/-- Scenario C, task 3: succeeds with `"three done"`. -/
def tThree : Task :=
  mkTask "id_3" "three" (fun _ => Except.ok (JSVal.js_str "three done")) [] false

/-- Scenario C: sequential process of three tasks, task 2 critical and
throwing. -/
def pScenC : CustomProcess := ⟨"P", [tOne, tBoom, tThree], false, [], []⟩

/-- Task with the `UPPER` tool attached and `setToolLimit("UPPER", 2)`. -/
def tLim2 : Task :=
  (mkTask "id" "hello" (fun _ => Except.ok (JSVal.js_str "hello")) [0]
    false).setToolLimit "UPPER" 2

/-- Heap after the first `useTool` call of the limit-2 scenario. -/
def heap2a : Heap := (tLim2.useTool heapU "UPPER" (JSVal.js_str "a")).snd

/-- Heap after the second `useTool` call of the limit-2 scenario. -/
def heap2b : Heap := (tLim2.useTool heap2a "UPPER" (JSVal.js_str "b")).snd

/-- Scenario A: task with base result `"hello"`, tool `UPPER`, limit 3. -/
def tScenA : Task :=
  (mkTask "id_1" "hello" (fun _ => Except.ok (JSVal.js_str "hello")) [0]
    false).setToolLimit "UPPER" 3

/-- Scenario-A task with no limit configured for `UPPER`. -/
def tNoLim : Task :=
  mkTask "id_1" "hello" (fun _ => Except.ok (JSVal.js_str "hello")) [0] false

/-- Scenario B, first task: settles to `"hello (async)"`. -/
def tHello : Task :=
  mkTask "id_1" "hello" (fun _ => Except.ok (JSVal.js_str "hello (async)")) [] false

/-- Scenario B, second task: settles to `"world (async)"`. -/
def tWorld : Task :=
  mkTask "id_2" "world" (fun _ => Except.ok (JSVal.js_str "world (async)")) [] false

/-- Scenario B: parallel process of the two independent tasks. -/
def pScenB : CustomProcess := ⟨"B", [tHello, tWorld], true, [], []⟩

/-- Parallel process holding a single critical failing task. -/
def pParCrit : CustomProcess := ⟨"X", [tBoom], true, [], []⟩

/-- A non-critical task that throws `"oops"`. -/
def tOops : Task :=
  mkTask "f" "failing" (fun _ => Except.error "oops") [] false

/-- Sequential process of one failing non-critical task. -/
def pFailOne : CustomProcess := ⟨"Q", [tOops], false, [], []⟩

/-- A critical task that succeeds with result `null`. -/
def tNullCrit : Task :=
  mkTask "n" "nullcrit" (fun _ => Except.ok JSVal.js_null) [] true

/-- Sequential process whose middle task is critical and settles to a
legitimate `null`. -/
def pNullCrit : CustomProcess := ⟨"R", [tOne, tNullCrit, tThree], false, [], []⟩

/-- Task with the `UPPER` tool attached and `setToolLimit("UPPER", 0)`. -/
def tLim0 : Task :=
  (mkTask "id" "zero" (fun _ => Except.ok (JSVal.js_str "zero")) [0]
    false).setToolLimit "UPPER" 0

/-! ### Lemmas about `executeTask` -/

theorem executeTask_of_ok {t : Task} {σ σ2 : Heap} {v r : JSVal}
    (p : CustomProcess) (h : t.execute σ v = (Except.ok r, σ2)) :
    p.executeTask σ t v =
      (r, σ2, { p with executionHistory := p.executionHistory ++ [markerOf t] }) := by
  simp [CustomProcess.executeTask, h]

theorem executeTask_of_err {t : Task} {σ σ2 : Heap} {v : JSVal} {e : String}
    (p : CustomProcess) (h : t.execute σ v = (Except.error e, σ2)) :
    p.executeTask σ t v =
      ((if t.critical then JSVal.js_null else JSVal.js_err e), σ2,
        { p with failures := p.failures ++ [failureMsg p e] }) := by
  cases hc : t.critical <;> simp [CustomProcess.executeTask, h, hc]

theorem executeTask_fst_settled (p : CustomProcess) (σ : Heap) (t : Task)
    (v : JSVal) : (p.executeTask σ t v).fst = settledValue σ t v := by
  rcases h : t.execute σ v with ⟨res, σ2⟩
  cases res with
  | ok r => simp [executeTask_of_ok p h, settledValue, h]
  | error e =>
    cases hc : t.critical <;>
      simp [executeTask_of_err p h, settledValue, h, hc]

theorem executeTask_name (p : CustomProcess) (σ : Heap) (t : Task)
    (v : JSVal) : (p.executeTask σ t v).snd.snd.name = p.name := by
  rcases h : t.execute σ v with ⟨res, σ2⟩
  cases res with
  | ok r => simp [executeTask_of_ok p h]
  | error e =>
    cases hc : t.critical <;> simp [executeTask_of_err p h, hc]

/-- One attempted task appends exactly one entry to exactly one of the two
logs: the history marker on success, a failure record on a throw. -/
theorem executeTask_log_dichotomy (p : CustomProcess) (σ : Heap) (t : Task)
    (v : JSVal) :
    ((p.executeTask σ t v).snd.snd.executionHistory
        = p.executionHistory ++ [markerOf t] ∧
      (p.executeTask σ t v).snd.snd.failures = p.failures) ∨
    ((p.executeTask σ t v).snd.snd.executionHistory = p.executionHistory ∧
      ∃ e, (p.executeTask σ t v).snd.snd.failures
        = p.failures ++ [failureMsg p e]) := by
  rcases h : t.execute σ v with ⟨res, σ2⟩
  cases res with
  | ok r => exact Or.inl (by simp [executeTask_of_ok p h])
  | error e =>
    refine Or.inr ⟨?_, e, ?_⟩ <;>
      cases hc : t.critical <;> simp [executeTask_of_err p h, hc]

/-! ### Lemmas about the sequential loop -/

theorem runSeqAux_nil (σ : Heap) (p : CustomProcess) (prev : JSVal) :
    runSeqAux σ p prev [] = ([], σ, p) := rfl

theorem runSeqAux_cons (σ : Heap) (p : CustomProcess) (prev : JSVal)
    (t : Task) (ts : List Task) :
    runSeqAux σ p prev (t :: ts) =
      (if (p.executeTask σ t prev).fst = JSVal.js_null ∧ t.critical = true then
        ([], (p.executeTask σ t prev).snd.fst, (p.executeTask σ t prev).snd.snd)
      else
        ((p.executeTask σ t prev).fst ::
            (runSeqAux (p.executeTask σ t prev).snd.fst
              (p.executeTask σ t prev).snd.snd
              (p.executeTask σ t prev).fst ts).fst,
          (runSeqAux (p.executeTask σ t prev).snd.fst
            (p.executeTask σ t prev).snd.snd
            (p.executeTask σ t prev).fst ts).snd.fst,
          (runSeqAux (p.executeTask σ t prev).snd.fst
            (p.executeTask σ t prev).snd.snd
            (p.executeTask σ t prev).fst ts).snd.snd)) := rfl

theorem runSeqAux_len (ts : List Task) :
    ∀ σ p prev, (runSeqAux σ p prev ts).fst.length ≤ ts.length := by
  induction ts with
  | nil => intro σ p prev; simp [runSeqAux_nil]
  | cons t ts ih =>
    intro σ p prev
    rw [runSeqAux_cons]
    split
    · simp
    · simpa using Nat.succ_le_succ (ih _ _ _)

theorem runSeqAux_hist_mono (ts : List Task) :
    ∀ σ p prev, ∃ δ,
      (runSeqAux σ p prev ts).snd.snd.executionHistory
          = p.executionHistory ++ δ ∧
        ∀ s ∈ δ, ∃ t ∈ ts, s = markerOf t := by
  induction ts with
  | nil => intro σ p prev; exact ⟨[], by simp [runSeqAux_nil]⟩
  | cons t ts ih =>
    intro σ p prev
    have hstep := executeTask_log_dichotomy p σ t prev
    rw [runSeqAux_cons]
    split
    · rcases hstep with ⟨h1, _⟩ | ⟨h1, _⟩
      · exact ⟨[markerOf t], by simp [h1]⟩
      · exact ⟨[], by simp [h1]⟩
    · rcases ih (p.executeTask σ t prev).snd.fst
        (p.executeTask σ t prev).snd.snd (p.executeTask σ t prev).fst with
        ⟨δ, hδ, hmem⟩
      rcases hstep with ⟨h1, _⟩ | ⟨h1, _⟩
      · refine ⟨markerOf t :: δ, ?_, ?_⟩
        · simp only [hδ, h1]; simp
        · intro s hs
          rcases List.mem_cons.mp hs with hs | hs
          · exact ⟨t, by simp, hs⟩
          · rcases hmem s hs with ⟨t', ht', hs'⟩
            exact ⟨t', by simp [ht'], hs'⟩
      · refine ⟨δ, ?_, ?_⟩
        · simp only [hδ, h1]
        · intro s hs
          rcases hmem s hs with ⟨t', ht', hs'⟩
          exact ⟨t', by simp [ht'], hs'⟩

theorem runSeqAux_fail_mono (ts : List Task) :
    ∀ σ p prev, ∃ δ,
      (runSeqAux σ p prev ts).snd.snd.failures = p.failures ++ δ := by
  induction ts with
  | nil => intro σ p prev; exact ⟨[], by simp [runSeqAux_nil]⟩
  | cons t ts ih =>
    intro σ p prev
    have hstep := executeTask_log_dichotomy p σ t prev
    rw [runSeqAux_cons]
    split
    · rcases hstep with ⟨_, h2⟩ | ⟨_, e, h2⟩
      · exact ⟨[], by simp [h2]⟩
      · exact ⟨[failureMsg p e], by simp [h2]⟩
    · rcases ih (p.executeTask σ t prev).snd.fst
        (p.executeTask σ t prev).snd.snd (p.executeTask σ t prev).fst with
        ⟨δ, hδ⟩
      rcases hstep with ⟨_, h2⟩ | ⟨_, e, h2⟩
      · exact ⟨δ, by simp only [hδ, h2]⟩
      · exact ⟨failureMsg p e :: δ, by simp only [hδ, h2]; simp⟩

theorem isThrow_eq_true {x : Except String JSVal} (h : isThrow x = true) :
    ∃ e, x = Except.error e := by
  cases x with
  | error e => exact ⟨e, rfl⟩
  | ok r => simp [isThrow] at h

/-- Each attempt grows the combined log length by exactly one. -/
theorem executeTask_log_sum (p : CustomProcess) (σ : Heap) (t : Task)
    (v : JSVal) :
    (p.executeTask σ t v).snd.snd.executionHistory.length
        + (p.executeTask σ t v).snd.snd.failures.length
      = p.executionHistory.length + p.failures.length + 1 := by
  rcases executeTask_log_dichotomy p σ t v with ⟨h1, h2⟩ | ⟨h1, e, h2⟩ <;>
    simp [h1, h2] <;> omega

/-- With only non-critical tasks the sequential loop never breaks: one
result per task, and the two logs grow by the task count combined. -/
theorem runSeqAux_nocrit (ts : List Task) :
    ∀ σ p prev, (∀ t ∈ ts, t.critical = false) →
      (runSeqAux σ p prev ts).fst.length = ts.length ∧
      (runSeqAux σ p prev ts).snd.snd.executionHistory.length
          + (runSeqAux σ p prev ts).snd.snd.failures.length
        = p.executionHistory.length + p.failures.length + ts.length := by
  induction ts with
  | nil => intro σ p prev _; simp [runSeqAux_nil]
  | cons t ts ih =>
    intro σ p prev h
    have hct : t.critical = false := h t (by simp)
    have hcond : ¬((p.executeTask σ t prev).fst = JSVal.js_null
        ∧ t.critical = true) := by
      rintro ⟨_, hc⟩; rw [hct] at hc; exact Bool.false_ne_true hc
    rw [runSeqAux_cons, if_neg hcond]
    have hrest := ih (p.executeTask σ t prev).snd.fst
      (p.executeTask σ t prev).snd.snd (p.executeTask σ t prev).fst
      (fun t' ht' => h t' (by simp [ht']))
    have hsum := executeTask_log_sum p σ t prev
    refine ⟨by simpa using hrest.1, ?_⟩
    simp only [hrest.2, hsum, List.length_cons]
    omega

/-- After a critical task that is certain to throw, the remaining tasks
are irrelevant: the run is the run that stops at that task. -/
theorem runSeq_halt (tc : Task) (hc : tc.critical = true)
    (hf : ∀ σ' v, isThrow (tc.execute σ' v).fst = true) (ts₁ : List Task) :
    ∀ ts₂ σ p prev,
      runSeqAux σ p prev (ts₁ ++ tc :: ts₂)
        = runSeqAux σ p prev (ts₁ ++ [tc]) := by
  induction ts₁ with
  | nil =>
    intro ts₂ σ p prev
    rcases isThrow_eq_true (hf σ prev) with ⟨e, he⟩
    rcases hx : tc.execute σ prev with ⟨res, σ2⟩
    rw [hx] at he
    have hres : res = Except.error e := by
      simpa using he
    subst hres
    have hq := executeTask_of_err p hx
    have hcond : (p.executeTask σ tc prev).fst = JSVal.js_null
        ∧ tc.critical = true := by
      constructor
      · rw [hq]; simp [hc]
      · exact hc
    simp only [List.nil_append]
    rw [runSeqAux_cons, runSeqAux_cons, if_pos hcond, if_pos hcond]
  | cons t ts₁ ih =>
    intro ts₂ σ p prev
    simp only [List.cons_append]
    rw [runSeqAux_cons, runSeqAux_cons]
    by_cases hcond : (p.executeTask σ t prev).fst = JSVal.js_null
        ∧ t.critical = true
    · rw [if_pos hcond, if_pos hcond]
    · rw [if_neg hcond, if_neg hcond, ih]

/-- A critical task that succeeds with result `null` halts the sequential
loop right there: the marker is logged, nothing reaches `results`, no
failure is recorded, and no later task runs. -/
theorem runSeq_null_crit (tc : Task) (hc : tc.critical = true)
    (hok : ∀ σ' v, tc.execute σ' v = (Except.ok JSVal.js_null, σ')) :
    ∀ ts σ p prev,
      runSeqAux σ p prev (tc :: ts)
        = ([], σ, { p with
            executionHistory := p.executionHistory ++ [markerOf tc] }) := by
  intro ts σ p prev
  have hq := executeTask_of_ok p (hok σ prev)
  have hcond : (p.executeTask σ tc prev).fst = JSVal.js_null
      ∧ tc.critical = true := ⟨by rw [hq], hc⟩
  rw [runSeqAux_cons, if_pos hcond, hq]

/-! ### Lemmas about the parallel branch -/

theorem runParAux_nil (σ : Heap) (p : CustomProcess) (tasks : List Task) :
    runParAux σ p tasks [] = ([], σ, p) := rfl

theorem runParAux_cons_none (σ : Heap) (p : CustomProcess)
    (tasks : List Task) (i : Nat) (rest : List Nat)
    (h : List.get? tasks i = none) :
    runParAux σ p tasks (i :: rest) = runParAux σ p tasks rest := by
  rw [List.get?_eq_getElem?] at h
  simp [runParAux, h]

theorem runParAux_cons_some (σ : Heap) (p : CustomProcess)
    (tasks : List Task) (i : Nat) (rest : List Nat) (t : Task)
    (h : List.get? tasks i = some t) :
    runParAux σ p tasks (i :: rest) =
      ((i, (p.executeTask σ t JSVal.js_null).fst) ::
          (runParAux (p.executeTask σ t JSVal.js_null).snd.fst
            (p.executeTask σ t JSVal.js_null).snd.snd tasks rest).fst,
        (runParAux (p.executeTask σ t JSVal.js_null).snd.fst
          (p.executeTask σ t JSVal.js_null).snd.snd tasks rest).snd.fst,
        (runParAux (p.executeTask σ t JSVal.js_null).snd.fst
          (p.executeTask σ t JSVal.js_null).snd.snd tasks rest).snd.snd) := by
  rw [List.get?_eq_getElem?] at h
  simp [runParAux, h]

theorem runParAux_hist_mono (sched : List Nat) :
    ∀ σ p tasks, ∃ δ,
      (runParAux σ p tasks sched).snd.snd.executionHistory
        = p.executionHistory ++ δ := by
  induction sched with
  | nil => intro σ p tasks; exact ⟨[], by simp [runParAux_nil]⟩
  | cons i rest ih =>
    intro σ p tasks
    cases hget : List.get? tasks i with
    | none => rw [runParAux_cons_none σ p tasks i rest hget]; exact ih σ p tasks
    | some t =>
      rw [runParAux_cons_some σ p tasks i rest t hget]
      rcases ih (p.executeTask σ t JSVal.js_null).snd.fst
        (p.executeTask σ t JSVal.js_null).snd.snd tasks with ⟨δ, hδ⟩
      rcases executeTask_log_dichotomy p σ t JSVal.js_null with
        ⟨h1, _⟩ | ⟨h1, _⟩
      · exact ⟨markerOf t :: δ, by simp only [hδ, h1]; simp⟩
      · exact ⟨δ, by simp only [hδ, h1]⟩

theorem runParAux_fail_mono (sched : List Nat) :
    ∀ σ p tasks, ∃ δ,
      (runParAux σ p tasks sched).snd.snd.failures = p.failures ++ δ := by
  induction sched with
  | nil => intro σ p tasks; exact ⟨[], by simp [runParAux_nil]⟩
  | cons i rest ih =>
    intro σ p tasks
    cases hget : List.get? tasks i with
    | none => rw [runParAux_cons_none σ p tasks i rest hget]; exact ih σ p tasks
    | some t =>
      rw [runParAux_cons_some σ p tasks i rest t hget]
      rcases ih (p.executeTask σ t JSVal.js_null).snd.fst
        (p.executeTask σ t JSVal.js_null).snd.snd tasks with ⟨δ, hδ⟩
      rcases executeTask_log_dichotomy p σ t JSVal.js_null with
        ⟨_, h2⟩ | ⟨_, e, h2⟩
      · exact ⟨δ, by simp only [hδ, h2]⟩
      · exact ⟨failureMsg p e :: δ, by simp only [hδ, h2]; simp⟩

/-- A task without tools settles independently of the heap. -/
theorem settledValue_toolfree {t : Task} (ht : t.tools = []) (σ : Heap)
    (v : JSVal) : settledValue σ t v = settledValue [] t v := by
  cases h : t.runFunction v <;>
    simp [settledValue, Task.execute, ht, h, Task.executeTools]

/-- For tool-free tasks, one scheduler step list settles exactly the
scheduled tasks, each to its own heap-independent value. -/
theorem runParAux_entries (tasks : List Task)
    (htf : ∀ t ∈ tasks, t.tools = []) :
    ∀ sched σ p,
      (runParAux σ p tasks sched).fst
        = sched.filterMap (fun i => (List.get? tasks i).map
            (fun t => (i, settledValue [] t JSVal.js_null))) := by
  intro sched
  induction sched with
  | nil => intro σ p; simp [runParAux_nil]
  | cons i rest ih =>
    intro σ p
    cases hget : List.get? tasks i with
    | none =>
      rw [runParAux_cons_none σ p tasks i rest hget]
      rw [List.filterMap_cons, hget]
      simp [ih]
    | some t =>
      rw [runParAux_cons_some σ p tasks i rest t hget]
      have hmem : t ∈ tasks := List.get?_mem hget
      have hval : (p.executeTask σ t JSVal.js_null).fst
          = settledValue [] t JSVal.js_null := by
        rw [executeTask_fst_settled, settledValue_toolfree (htf t hmem)]
      rw [List.filterMap_cons, hget]
      simp [hval, ih]

/-- Looking the entry of index `i` up among the settled pairs of any
schedule containing `i` yields task `i`'s own settled value. -/
theorem find_entry (tasks : List Task) :
    ∀ sched : List Nat, ∀ i t, i ∈ sched → List.get? tasks i = some t →
      (sched.filterMap (fun j => (List.get? tasks j).map
          (fun u => (j, settledValue [] u JSVal.js_null)))).find?
          (fun e => e.fst == i)
        = some (i, settledValue [] t JSVal.js_null) := by
  intro sched
  induction sched with
  | nil => intro i t hi _; simp at hi
  | cons j rest ih =>
    intro i t hi hget
    cases hj : List.get? tasks j with
    | none =>
      have hij : i ≠ j := by rintro rfl; rw [hget] at hj; exact Option.noConfusion hj
      have hirest : i ∈ rest := by
        rcases List.mem_cons.mp hi with h | h
        · exact absurd h hij
        · exact h
      simp only [List.filterMap_cons, hj, Option.map_none']
      exact ih i t hirest hget
    | some u =>
      simp only [List.filterMap_cons, hj, Option.map_some']
      by_cases hij : j = i
      · subst hij
        rw [hget] at hj
        have hu : u = t := by injection hj with h; exact h.symm
        subst hu
        exact List.find?_cons_of_pos _ (by simp)
      · rw [List.find?_cons_of_neg _ (by simp [hij])]
        have hirest : i ∈ rest := by
          rcases List.mem_cons.mp hi with h | h
          · exact absurd h.symm hij
          · exact h
        exact ih i t hirest hget

/-- For tool-free tasks and any schedule that runs every task, the result
at each position is that task's settled value: the results sequence is in
task-list order regardless of the completion order. -/
theorem runParallel_toolfree (σ : Heap) (p : CustomProcess)
    (sched : List Nat) (htf : ∀ t ∈ p.tasks, t.tools = [])
    (hcover : ∀ i, i < p.tasks.length → i ∈ sched) :
    (runParallel σ p sched).fst
      = p.tasks.map (fun t => settledValue [] t JSVal.js_null) := by
  apply List.ext
  intro n
  rw [runParallel]
  simp only [assemble, runParAux_entries p.tasks htf sched σ p]
  by_cases hn : n < p.tasks.length
  · rcases List.get?_eq_get (l := p.tasks) hn with hget
    rw [List.get?_map, List.get?_range hn, Option.map_some', List.get?_map,
      hget, Option.map_some']
    rw [find_entry p.tasks sched n _ (hcover n hn) hget]
  · have h1 : p.tasks.length ≤ n := Nat.le_of_not_lt hn
    rw [List.get?_map, List.get?_map]
    rw [List.get?_eq_none.mpr (by simpa using h1),
      List.get?_eq_none.mpr (by simpa using h1)]
    rfl

/-! ### Lemmas about the instrumented sequential trace -/

theorem runSeqTrace_nil (σ : Heap) (p : CustomProcess) (prev : JSVal) :
    runSeqTrace σ p prev [] = ([], σ, p) := rfl

theorem runSeqTrace_cons (σ : Heap) (p : CustomProcess) (prev : JSVal)
    (t : Task) (ts : List Task) :
    runSeqTrace σ p prev (t :: ts) =
      (if (p.executeTask σ t prev).fst = JSVal.js_null ∧ t.critical = true then
        ([⟨prev, (p.executeTask σ t prev).fst, t.description, t.critical⟩],
          (p.executeTask σ t prev).snd.fst, (p.executeTask σ t prev).snd.snd)
      else
        (⟨prev, (p.executeTask σ t prev).fst, t.description, t.critical⟩ ::
            (runSeqTrace (p.executeTask σ t prev).snd.fst
              (p.executeTask σ t prev).snd.snd
              (p.executeTask σ t prev).fst ts).fst,
          (runSeqTrace (p.executeTask σ t prev).snd.fst
            (p.executeTask σ t prev).snd.snd
            (p.executeTask σ t prev).fst ts).snd.fst,
          (runSeqTrace (p.executeTask σ t prev).snd.fst
            (p.executeTask σ t prev).snd.snd
            (p.executeTask σ t prev).fst ts).snd.snd)) := rfl

/-- Each attempted task receives exactly the value the previous attempted
task settled to. -/
theorem runSeqTrace_chained (ts : List Task) :
    ∀ σ p prev, Chained prev (runSeqTrace σ p prev ts).fst := by
  induction ts with
  | nil => intro σ p prev; simp [runSeqTrace_nil, Chained]
  | cons t ts ih =>
    intro σ p prev
    rw [runSeqTrace_cons]
    split
    · exact ⟨rfl, trivial⟩
    · exact ⟨rfl, ih _ _ _⟩

/-- The attempted tasks are an initial segment of the task list, in list
order. -/
theorem runSeqTrace_descs (ts : List Task) :
    ∀ σ p prev, ∃ k,
      (runSeqTrace σ p prev ts).fst.map StepRec.desc
        = (ts.take k).map Task.description := by
  induction ts with
  | nil => intro σ p prev; exact ⟨0, by simp [runSeqTrace_nil]⟩
  | cons t ts ih =>
    intro σ p prev
    rw [runSeqTrace_cons]
    split
    · exact ⟨1, by simp⟩
    · rcases ih (p.executeTask σ t prev).snd.fst
        (p.executeTask σ t prev).snd.snd (p.executeTask σ t prev).fst with
        ⟨k, hk⟩
      exact ⟨k + 1, by simp [hk]⟩

/-- The trace is a faithful instrumentation: filtering out the breaking
step and projecting the settled values gives back `runSeqAux`, state
included. -/
theorem runSeqTrace_consistent (ts : List Task) :
    ∀ σ p prev,
      (runSeqAux σ p prev ts).fst
          = ((runSeqTrace σ p prev ts).fst.filter pushedB).map StepRec.output
        ∧ (runSeqAux σ p prev ts).snd = (runSeqTrace σ p prev ts).snd := by
  induction ts with
  | nil => intro σ p prev; simp [runSeqAux_nil, runSeqTrace_nil]
  | cons t ts ih =>
    intro σ p prev
    rw [runSeqAux_cons, runSeqTrace_cons]
    by_cases hcond : (p.executeTask σ t prev).fst = JSVal.js_null
        ∧ t.critical = true
    · rw [if_pos hcond, if_pos hcond]
      have hpush : pushedB
          ⟨prev, (p.executeTask σ t prev).fst, t.description, t.critical⟩
            = false := by
        simp [pushedB, hcond.1, hcond.2]
      simp [hpush]
    · rw [if_neg hcond, if_neg hcond]
      have hpush : pushedB
          ⟨prev, (p.executeTask σ t prev).fst, t.description, t.critical⟩
            = true := by
        simp only [pushedB, Bool.not_eq_true']
        by_cases h1 : (p.executeTask σ t prev).fst = JSVal.js_null
        · by_cases h2 : t.critical = true
          · exact absurd ⟨h1, h2⟩ hcond
          · rw [Bool.not_eq_true] at h2
            simp [h2]
        · simp [h1]
      rcases ih (p.executeTask σ t prev).snd.fst
        (p.executeTask σ t prev).snd.snd (p.executeTask σ t prev).fst with
        ⟨ih1, ih2⟩
      simp [hpush, ih1, ih2]

/-! ### Lemmas about `useTool` -/

theorem findTool_spec (σ : Heap) (toolName : String) :
    ∀ refs : List Nat, ∀ r tool,
      findTool σ refs toolName = some (r, tool) →
      r ∈ refs ∧ List.get? σ r = some tool ∧ tool.name = toolName := by
  intro refs
  induction refs with
  | nil => intro r tool h; simp [findTool] at h
  | cons r₀ rest ih =>
    intro r tool h
    rw [findTool, List.findSome?_cons] at h
    cases hget : List.get? σ r₀ with
    | none =>
      rw [hget] at h
      dsimp only at h
      rcases ih r tool (by rw [findTool]; exact h) with ⟨h1, h2, h3⟩
      exact ⟨by simp [h1], h2, h3⟩
    | some t₀ =>
      rw [hget] at h
      dsimp only at h
      by_cases hn : (t₀.name == toolName) = true
      · rw [if_pos hn] at h
        dsimp only at h
        have hr : r₀ = r ∧ t₀ = tool := by
          simpa using h
        rcases hr with ⟨rfl, rfl⟩
        exact ⟨by simp, hget, by simpa using hn⟩
      · rw [if_neg hn] at h
        dsimp only at h
        rcases ih r tool (by rw [findTool]; exact h) with ⟨h1, h2, h3⟩
        exact ⟨by simp [h1], h2, h3⟩

theorem useTool_not_found (t : Task) (σ : Heap) (toolName : String)
    (v : JSVal) (h : findTool σ t.tools toolName = none) :
    t.useTool σ toolName v
      = (Except.error ("No tool found with name: " ++ toolName), σ) := by
  simp [Task.useTool, h]

theorem useTool_blocked (t : Task) (σ : Heap) (toolName : String)
    (v : JSVal) (r : Nat) (tool : ToolObj)
    (hfind : findTool σ t.tools toolName = some (r, tool))
    (hblock : limitBlocks t.toolLimits toolName tool.usageCount = true) :
    t.useTool σ toolName v
      = (Except.error ("Usage limit exceeded for tool: " ++ tool.name
          ++ " in task: " ++ t.description), σ) := by
  simp [Task.useTool, hfind, hblock]

theorem useTool_success (t : Task) (σ : Heap) (toolName : String)
    (v : JSVal) (r : Nat) (tool : ToolObj)
    (hfind : findTool σ t.tools toolName = some (r, tool))
    (hfree : limitBlocks t.toolLimits toolName tool.usageCount = false) :
    t.useTool σ toolName v
      = (tool.run v,
          heapSet σ r { tool with usageCount := tool.usageCount + 1 }) := by
  simp [Task.useTool, hfind, hfree]

theorem limitBlocks_of_ge (limits : List (String × Nat)) (toolName : String)
    (L c : Nat) (hL : lookupLimit limits toolName = some L) (h0 : L ≠ 0)
    (hge : L ≤ c) : limitBlocks limits toolName c = true := by
  simp [limitBlocks, hL, h0, hge]

theorem limitBlocks_zero (limits : List (String × Nat)) (toolName : String)
    (c : Nat) (hL : lookupLimit limits toolName = some 0) :
    limitBlocks limits toolName c = false := by
  simp [limitBlocks, hL]

theorem limitBlocks_nil (toolName : String) (c : Nat) :
    limitBlocks [] toolName c = false := by
  simp [limitBlocks, lookupLimit]

theorem usageAt_heapSet_self {σ : Heap} {r : Nat} {tool : ToolObj}
    (hget : List.get? σ r = some tool) (u : ToolObj) :
    usageAt (heapSet σ r u) r = u.usageCount := by
  rcases List.get?_eq_some.mp hget with ⟨hlt, _⟩
  have hset : (heapSet σ r u).get? r = some u := by
    rw [heapSet]; exact List.get?_set_eq_of_lt _ hlt
  rw [usageAt, hset]

theorem usageAt_heapSet_other {σ : Heap} {r r' : Nat} (h : r ≠ r')
    (u : ToolObj) : usageAt (heapSet σ r u) r' = usageAt σ r' := by
  rw [usageAt, heapSet, List.get?_set_ne _ _ h, usageAt]

/-- `useTool` never decreases any usage counter, and increases a counter
by at most one. -/
theorem useTool_usage_mono (t : Task) (σ : Heap) (toolName : String)
    (v : JSVal) (r' : Nat) :
    usageAt (t.useTool σ toolName v).snd r' = usageAt σ r' ∨
      usageAt (t.useTool σ toolName v).snd r' = usageAt σ r' + 1 := by
  cases hfind : findTool σ t.tools toolName with
  | none => rw [useTool_not_found t σ toolName v hfind]; exact Or.inl rfl
  | some rt =>
    rcases rt with ⟨r, tool⟩
    have hget : List.get? σ r = some tool :=
      (findTool_spec σ toolName t.tools r tool hfind).2.1
    cases hblock : limitBlocks t.toolLimits toolName tool.usageCount with
    | true =>
      rw [useTool_blocked t σ toolName v r tool hfind hblock]
      exact Or.inl rfl
    | false =>
      rw [useTool_success t σ toolName v r tool hfind hblock]
      by_cases hr : r = r'
      · subst hr
        right
        rw [usageAt_heapSet_self hget]
        rw [usageAt, hget]
      · left
        exact usageAt_heapSet_other hr _

/-! ### Heap agreement and the tool pipeline of `execute` -/

theorem agreeOn_refl (σ : Heap) : agreeOn σ σ :=
  ⟨rfl, fun _ => ⟨rfl, rfl⟩⟩

theorem agreeOn_get {σ σ' : Heap} (h : agreeOn σ σ') {r : Nat}
    {tool : ToolObj} (hget : List.get? σ r = some tool) :
    ∃ tool', List.get? σ' r = some tool' ∧ tool'.name = tool.name ∧
      tool'.operation = tool.operation := by
  rcases h with ⟨_, hpt⟩
  rcases hpt r with ⟨hname, hop⟩
  cases hget' : List.get? σ' r with
  | none =>
    rw [nameAt, nameAt, hget, hget'] at hname
    simp at hname
  | some tool' =>
    refine ⟨tool', rfl, ?_, ?_⟩
    · rw [nameAt, nameAt, hget, hget'] at hname
      simpa using hname
    · rw [hget, hget'] at hop
      simpa using hop

theorem agreeOn_heapSet {σ σ' : Heap} (h : agreeOn σ σ') {r : Nat}
    {tool : ToolObj} (hget' : List.get? σ' r = some tool) (c : Nat) :
    agreeOn σ (heapSet σ' r { tool with usageCount := c }) := by
  rcases h with ⟨hlen, hpt⟩
  refine ⟨by rw [heapSet, List.length_set]; exact hlen, fun r' => ?_⟩
  by_cases hr : r = r'
  · subst hr
    rcases List.get?_eq_some.mp hget' with ⟨hlt, _⟩
    have hset : (heapSet σ' r { tool with usageCount := c }).get? r
        = some { tool with usageCount := c } := by
      rw [heapSet]; exact List.get?_set_eq_of_lt _ hlt
    constructor
    · rw [nameAt, hset, ← (hpt r).1, nameAt, hget']
      rfl
    · rw [hset, ← (hpt r).2, hget']
      rfl
  · have hset : (heapSet σ' r { tool with usageCount := c }).get? r'
        = σ'.get? r' := by
      rw [heapSet]; exact List.get?_set_ne _ _ hr
    constructor
    · rw [nameAt, hset, ← (hpt r').1, nameAt]
    · rw [hset, ← (hpt r').2]

/-- Under pairwise-distinct tool names (relative to the base heap), the
name lookup of `useTool` resolves, in any agreeing heap, to exactly the
tool being iterated. -/
theorem findTool_resolve {σ σ' : Heap} (hagree : agreeOn σ σ')
    (refs : List Nat)
    (hvalid : ∀ r ∈ refs, (List.get? σ r).isSome = true)
    (hinj : ∀ r₁ ∈ refs, ∀ r₂ ∈ refs, nameAt σ r₁ = nameAt σ r₂ → r₁ = r₂)
    (r : Nat) (hr : r ∈ refs) (tool' : ToolObj)
    (hget' : List.get? σ' r = some tool') :
    findTool σ' refs tool'.name = some (r, tool') := by
  induction refs with
  | nil => simp at hr
  | cons r₀ rest ih =>
    have hv₀ : (List.get? σ r₀).isSome = true := hvalid r₀ (by simp)
    rcases Option.isSome_iff_exists.mp hv₀ with ⟨t₀, hget₀⟩
    rcases agreeOn_get hagree hget₀ with ⟨t₀', hget₀', hname₀, _⟩
    rw [findTool, List.findSome?_cons, hget₀']
    dsimp only
    by_cases hn : (t₀'.name == tool'.name) = true
    · have hnames : nameAt σ r₀ = nameAt σ r := by
        have hname' : nameAt σ' r = some tool'.name := by
          rw [nameAt, hget']; rfl
        have hname₀' : nameAt σ' r₀ = some t₀'.name := by
          rw [nameAt, hget₀']; rfl
        have e1 := (hagree.2 r₀).1
        have e2 := (hagree.2 r).1
        rw [← e1, ← e2, hname', hname₀']
        rw [beq_iff_eq] at hn
        rw [hn]
      have hreq : r₀ = r := hinj r₀ (by simp) r hr hnames
      subst hreq
      rw [hget'] at hget₀'
      have ht : t₀' = tool' := by injection hget₀' with h; exact h.symm
      subst ht
      rw [if_pos hn]
    · rw [if_neg hn]
      have hrrest : r ∈ rest := by
        rcases List.mem_cons.mp hr with h | h
        · exfalso
          subst h
          rw [hget'] at hget₀'
          have ht : t₀' = tool' := by injection hget₀' with h; exact h.symm
          subst ht
          exact hn (by simp)
        · exact h
      have hfind := ih (fun r' hr' => hvalid r' (by simp [hr']))
        (fun r₁ h₁ r₂ h₂ hn' =>
          hinj r₁ (by simp [h₁]) r₂ (by simp [h₂]) hn') hrrest
      rw [findTool] at hfind
      exact hfind

/-- With no limits configured and pairwise-distinct tool names, the tool
loop of `execute` computes exactly the operation pipeline `chainOps`,
keeping the heap in agreement (only usage counters change). -/
theorem executeTools_chain (t : Task) (σ : Heap)
    (hlim : t.toolLimits = [])
    (hvalid : ∀ r ∈ t.tools, (List.get? σ r).isSome = true)
    (hinj : ∀ r₁ ∈ t.tools, ∀ r₂ ∈ t.tools,
      nameAt σ r₁ = nameAt σ r₂ → r₁ = r₂) :
    ∀ rs : List Nat, (∀ r ∈ rs, r ∈ t.tools) → ∀ σ', agreeOn σ σ' →
      ∀ v, (Task.executeTools t rs σ' v).fst = chainOps σ rs v ∧
        agreeOn σ (Task.executeTools t rs σ' v).snd := by
  intro rs
  induction rs with
  | nil =>
    intro _ σ' hagree v
    exact ⟨rfl, hagree⟩
  | cons r rs ih =>
    intro hsub σ' hagree v
    have hrmem : r ∈ t.tools := hsub r (by simp)
    rcases Option.isSome_iff_exists.mp (hvalid r hrmem) with ⟨tool, hget⟩
    rcases agreeOn_get hagree hget with ⟨tool', hget', hname', hop'⟩
    have hfind : findTool σ' t.tools tool'.name = some (r, tool') :=
      findTool_resolve hagree t.tools hvalid hinj r hrmem tool' hget'
    have hfree : limitBlocks t.toolLimits tool'.name tool'.usageCount
        = false := by rw [hlim]; exact limitBlocks_nil _ _
    have huse := useTool_success t σ' tool'.name v r tool' hfind hfree
    have hagree2 : agreeOn σ
        (heapSet σ' r { tool' with usageCount := tool'.usageCount + 1 }) :=
      agreeOn_heapSet hagree hget' _
    rw [Task.executeTools, hget']
    dsimp only
    rw [huse]
    have hrun : tool'.run v = tool.operation v := by rw [ToolObj.run, hop']
    rw [chainOps, hget]
    dsimp only
    cases hopv : tool.operation v with
    | error e =>
      have hrun' : tool'.run v = Except.error e := by rw [hrun, hopv]
      rw [hrun']
      exact ⟨rfl, hagree2⟩
    | ok v2 =>
      have hrun' : tool'.run v = Except.ok v2 := by rw [hrun, hopv]
      rw [hrun']
      dsimp only
      exact ih (fun r' hr' => hsub r' (by simp [hr'])) _ hagree2 v2

/-- Under the same conditions, `execute` is `runFunction` followed by the
operation pipeline over the task's tools. -/
theorem execute_chain (t : Task) (σ : Heap) (input : JSVal)
    (hlim : t.toolLimits = [])
    (hvalid : ∀ r ∈ t.tools, (List.get? σ r).isSome = true)
    (hinj : ∀ r₁ ∈ t.tools, ∀ r₂ ∈ t.tools,
      nameAt σ r₁ = nameAt σ r₂ → r₁ = r₂) :
    (t.execute σ input).fst =
      (match t.runFunction input with
      | Except.error e => Except.error e
      | Except.ok v => chainOps σ t.tools v) := by
  rw [Task.execute]
  cases hrf : t.runFunction input with
  | error e => rfl
  | ok v =>
    dsimp only
    exact (executeTools_chain t σ hlim hvalid hinj t.tools
      (fun r hr => hr) σ (agreeOn_refl σ) v).1

theorem useTool_lim0_step (c : Nat) :
    tLim0.useTool (heapUC c) "UPPER" (JSVal.js_str "a")
      = (Except.ok (JSVal.js_str "A"), heapUC (c + 1)) := rfl

/-- With `setToolLimit("UPPER", 0)` the tool can be used any number of
times; every call increments the counter. -/
theorem useRepeatedly_lim0 : ∀ n c,
    useRepeatedly tLim0 "UPPER" (JSVal.js_str "a") n (heapUC c)
      = some (heapUC (c + n)) := by
  intro n
  induction n with
  | zero => intro c; rfl
  | succ n ih =>
    intro c
    rw [useRepeatedly, useTool_lim0_step c]
    dsimp only
    rw [ih (c + 1)]
    have h : c + 1 + n = c + (n + 1) := by omega
    rw [h]

/-! ### The claims -/

/-- C1 (amended): for every sequential run whose task at 1-based position
`k` is critical and certain to throw, the run halts there — the tasks
after position `k` are irrelevant to the entire outcome, the results
sequence has length at most `k`, and every history entry added comes from
the first `k` tasks.  In the concrete 3-task scenario where task 2 is
critical and throws, `run()` returns a results sequence of length 1 (the
amendment: the critical failure's `null` is not appended, so only task
1's result is present, not 2 results), the failures log has length 1, and
task 3 never appears in `executionHistory`. -/
theorem claim_C1_amended (σ : Heap) (p : CustomProcess)
    (ts₁ ts₂ : List Task) (tc : Task) (hcrit : tc.critical = true)
    (hfail : ∀ σ' v, isThrow (tc.execute σ' v).fst = true) :
    (runSeqAux σ p JSVal.js_null (ts₁ ++ tc :: ts₂)
        = runSeqAux σ p JSVal.js_null (ts₁ ++ [tc])
      ∧ (runSeqAux σ p JSVal.js_null (ts₁ ++ tc :: ts₂)).fst.length
          ≤ ts₁.length + 1
      ∧ (∀ s ∈ (runSeqAux σ p JSVal.js_null
            (ts₁ ++ tc :: ts₂)).snd.snd.executionHistory,
          s ∈ p.executionHistory ∨ ∃ t ∈ ts₁ ++ [tc], s = markerOf t))
    ∧ ((pScenC.run []).fst.length = 1
      ∧ (pScenC.run []).snd.snd.failures.length = 1
      ∧ markerOf tThree ∉ (pScenC.run []).snd.snd.executionHistory) := by
  have he := runSeq_halt tc hcrit hfail ts₁ ts₂ σ p JSVal.js_null
  refine ⟨⟨he, ?_, ?_⟩, by decide, by decide, by decide⟩
  · rw [he]
    calc (runSeqAux σ p JSVal.js_null (ts₁ ++ [tc])).fst.length
        ≤ (ts₁ ++ [tc]).length := runSeqAux_len _ _ _ _
      _ = ts₁.length + 1 := by simp
  · intro s hs
    rw [he] at hs
    rcases runSeqAux_hist_mono (ts₁ ++ [tc]) σ p JSVal.js_null with
      ⟨δ, hδ, hmem⟩
    rw [hδ] at hs
    rcases List.mem_append.mp hs with h | h
    · exact Or.inl h
    · exact Or.inr (hmem s h)

/-- C1: the claim as stated is false — in the concrete scenario the
results sequence has length 1, not 2. -/
theorem claim_C1_counterexample : (pScenC.run []).fst.length ≠ 2 := by
  decide

/-- C1 witness: the amended theorem applied to the concrete scenario. -/
theorem claim_C1_witness :
    runSeqAux [] pScenC JSVal.js_null ([tOne] ++ tBoom :: [tThree])
      = runSeqAux [] pScenC JSVal.js_null ([tOne] ++ [tBoom]) :=
  (claim_C1_amended [] pScenC [tOne] [tThree] tBoom rfl
    (fun _ _ => rfl)).1.1

/-- C2 (amended): for every Task with a *nonzero* limit configured for a
tool name, a `useTool` call made when the tool's `usageCount` has already
reached or exceeded the limit fails with the limit-exceeded error and
leaves the heap — in particular the tool's `usageCount` — unchanged,
without invoking the operation.  With `setToolLimit("UPPER", 2)` the
first two invocations succeed (counts 1 then 2) and the third fails with
the count still 2.  (The amendment: a configured limit of `0` is falsy in
the guard and does not block, so "every configured limit" must read
"every nonzero configured limit".) -/
theorem claim_C2_amended :
    (∀ (t : Task) (σ : Heap) (toolName : String) (input : JSVal)
      (r : Nat) (tool : ToolObj) (L : Nat),
      lookupLimit t.toolLimits toolName = some L → L ≠ 0 →
      findTool σ t.tools toolName = some (r, tool) →
      L ≤ tool.usageCount →
      t.useTool σ toolName input
        = (Except.error ("Usage limit exceeded for tool: " ++ tool.name
            ++ " in task: " ++ t.description), σ))
    ∧ (isThrow (tLim2.useTool heapU "UPPER" (JSVal.js_str "a")).fst = false
      ∧ usageAt heap2a 0 = 1
      ∧ isThrow (tLim2.useTool heap2a "UPPER" (JSVal.js_str "b")).fst = false
      ∧ usageAt heap2b 0 = 2
      ∧ (tLim2.useTool heap2b "UPPER" (JSVal.js_str "c")).fst
          = Except.error
              "Usage limit exceeded for tool: UPPER in task: hello"
      ∧ usageAt (tLim2.useTool heap2b "UPPER" (JSVal.js_str "c")).snd 0
          = 2) := by
  constructor
  · intro t σ toolName input r tool L hL h0 hfind hge
    exact useTool_blocked t σ toolName input r tool hfind
      (limitBlocks_of_ge t.toolLimits toolName L tool.usageCount hL h0 hge)
  · exact ⟨by decide, by decide, by decide, by decide, by rfl, by decide⟩

/-- C2: the claim as stated is false for a configured limit of `0` — the
usage count (0) has reached the limit (0), yet the call succeeds. -/
theorem claim_C2_counterexample :
    lookupLimit tLim0.toolLimits "UPPER" = some 0
    ∧ usageAt heapU 0 = 0
    ∧ isThrow (tLim0.useTool heapU "UPPER" (JSVal.js_str "a")).fst
        = false := by
  decide

/-- C2 witness: the amended theorem applied to the third call of the
limit-2 scenario. -/
theorem claim_C2_witness :
    tLim2.useTool heap2b "UPPER" (JSVal.js_str "c")
      = (Except.error
          "Usage limit exceeded for tool: UPPER in task: hello", heap2b) :=
  claim_C2_amended.1 tLim2 heap2b "UPPER" (JSVal.js_str "c") 0
    ⟨"UPPER", upperOp, 2⟩ 2 rfl (by decide) rfl (by decide)

/-- C3 (amended): in both modes every attempted task appends exactly one
entry to exactly one of the two logs — the history marker on success, a
failure record on a throw (a failed task appends nothing to
`executionHistory`).  Consequently, for every sequential Process with
only non-critical tasks, `results.length` equals the task count and the
lengths of `executionHistory` and `failures` together grow by the task
count.  (The amendment: the claim's "appends exactly one entry to
executionHistory regardless of success or failure", and hence
"executionHistory.length equals the task count", holds only for
successful tasks.) -/
theorem claim_C3_amended :
    (∀ (p : CustomProcess) (σ : Heap) (t : Task) (v : JSVal),
      ((p.executeTask σ t v).snd.snd.executionHistory
          = p.executionHistory ++ [markerOf t] ∧
        (p.executeTask σ t v).snd.snd.failures = p.failures) ∨
      ((p.executeTask σ t v).snd.snd.executionHistory = p.executionHistory ∧
        ∃ e, (p.executeTask σ t v).snd.snd.failures
          = p.failures ++ [failureMsg p e]))
    ∧ (∀ (p : CustomProcess) (σ : Heap),
        p.isParallel = false → (∀ t ∈ p.tasks, t.critical = false) →
        (p.run σ).fst.length = p.tasks.length ∧
        (p.run σ).snd.snd.executionHistory.length
            + (p.run σ).snd.snd.failures.length
          = p.executionHistory.length + p.failures.length
            + p.tasks.length) := by
  constructor
  · exact executeTask_log_dichotomy
  · intro p σ hpar hnc
    have hrun : p.run σ = runSeqAux σ p JSVal.js_null p.tasks := by
      rw [CustomProcess.run, hpar]
      simp
    rw [hrun]
    exact runSeqAux_nocrit p.tasks σ p JSVal.js_null hnc

/-- C3: the claim as stated is false — a sequential process of one
non-critical failing task attempts the task, yet `executionHistory` stays
empty rather than gaining one entry per attempted task. -/
theorem claim_C3_counterexample :
    (pFailOne.run []).snd.snd.executionHistory.length
      ≠ pFailOne.tasks.length := by
  decide

/-- C3 witness: the amended theorem applied to the one-task failing
process. -/
theorem claim_C3_witness :
    (pFailOne.run []).fst.length = pFailOne.tasks.length ∧
    (pFailOne.run []).snd.snd.executionHistory.length
        + (pFailOne.run []).snd.snd.failures.length
      = pFailOne.executionHistory.length + pFailOne.failures.length
        + pFailOne.tasks.length :=
  claim_C3_amended.2 pFailOne [] rfl (by decide)

/-- C4 (amended): `Tool.run` invokes the wrapped operation with the input
and returns its result, but performs no side effect — the heap, and hence
`usageCount`, is untouched.  The increment by exactly 1 happens in
`Task.useTool`, before delegating to `run`, on every call that passes the
lookup and the limit check; and `usageCount` never decreases and never
grows by more than 1 per `useTool` call.  (The amendment: the claim
attributes the increment to `Tool.run`; in the code the counter is
incremented only by `Task.useTool`.) -/
theorem claim_C4_amended :
    (∀ (σ : Heap) (r : Nat) (input : JSVal),
      (ToolObj.runH σ r input).snd = σ ∧
      ∀ tool, List.get? σ r = some tool →
        (ToolObj.runH σ r input).fst = tool.operation input)
    ∧ (∀ (t : Task) (σ : Heap) (toolName : String) (v : JSVal)
        (r : Nat) (tool : ToolObj),
        findTool σ t.tools toolName = some (r, tool) →
        limitBlocks t.toolLimits toolName tool.usageCount = false →
        usageAt (t.useTool σ toolName v).snd r = usageAt σ r + 1)
    ∧ (∀ (t : Task) (σ : Heap) (toolName : String) (v : JSVal) (r' : Nat),
        usageAt (t.useTool σ toolName v).snd r' = usageAt σ r' ∨
        usageAt (t.useTool σ toolName v).snd r' = usageAt σ r' + 1) := by
  refine ⟨?_, ?_, ?_⟩
  · intro σ r input
    constructor
    · rw [ToolObj.runH]
      cases List.get? σ r <;> rfl
    · intro tool hget
      rw [ToolObj.runH, hget]
      rfl
  · intro t σ toolName v r tool hfind hfree
    have hget : List.get? σ r = some tool :=
      (findTool_spec σ toolName t.tools r tool hfind).2.1
    rw [useTool_success t σ toolName v r tool hfind hfree,
      usageAt_heapSet_self hget]
    rw [usageAt, hget]
  · exact useTool_usage_mono

/-- C4: the claim as stated is false — a direct `Tool.run` of the fresh
`UPPER` tool returns the operation's result but leaves `usageCount` at 0,
not 1. -/
theorem claim_C4_counterexample :
    (ToolObj.runH heapU 0 (JSVal.js_str "hello")).fst
        = Except.ok (JSVal.js_str "HELLO")
    ∧ usageAt (ToolObj.runH heapU 0 (JSVal.js_str "hello")).snd 0 = 0
    ∧ usageAt (ToolObj.runH heapU 0 (JSVal.js_str "hello")).snd 0 ≠ 1 := by
  refine ⟨by rfl, by decide, by decide⟩

/-- C4 witness: the amended theorem's increment clause applied to the
fresh `UPPER` heap. -/
theorem claim_C4_witness :
    usageAt (tScenA.useTool heapU "UPPER" (JSVal.js_str "hello")).snd 0
      = usageAt heapU 0 + 1 :=
  claim_C4_amended.2.1 tScenA heapU "UPPER" (JSVal.js_str "hello") 0
    ⟨"UPPER", upperOp, 0⟩ rfl rfl

/-- C5 (amended): in parallel mode the position of each task's settled
value in the results sequence equals that task's position in the input
task list, independent of the order in which the tasks settle (stated for
heap-independent, tool-free tasks, for any completion schedule covering
every task); one task's failure does not affect the others; a failed task
is recorded in `failures`, and at its position the results sequence holds
the error value if the task is non-critical but `null` if it is critical
(the amendment: the claim says a failed task is always represented by an
error value; a critical one is represented by `null`). -/
theorem claim_C5_amended :
    (∀ (σ : Heap) (p : CustomProcess) (sched : List Nat),
      (∀ t ∈ p.tasks, t.tools = []) →
      (∀ i, i < p.tasks.length → i ∈ sched) →
      (runParallel σ p sched).fst
        = p.tasks.map (fun t => settledValue [] t JSVal.js_null))
    ∧ (∀ (σ σ2 : Heap) (t : Task) (v : JSVal) (e : String),
        t.execute σ v = (Except.error e, σ2) →
        settledValue σ t v
          = (if t.critical then JSVal.js_null else JSVal.js_err e))
    ∧ (∀ (p : CustomProcess) (σ σ2 : Heap) (t : Task) (v : JSVal)
        (e : String), t.execute σ v = (Except.error e, σ2) →
        (p.executeTask σ t v).snd.snd.failures
          = p.failures ++ [failureMsg p e])
    ∧ ((runParallel [] pScenB [0, 1]).fst
        = [JSVal.js_str "hello (async)", JSVal.js_str "world (async)"]
      ∧ (runParallel [] pScenB [1, 0]).fst
        = [JSVal.js_str "hello (async)", JSVal.js_str "world (async)"]) := by
  refine ⟨?_, ?_, ?_, by decide, by decide⟩
  · exact runParallel_toolfree
  · intro σ σ2 t v e h
    rw [settledValue, h]
  · intro p σ σ2 t v e h
    rw [executeTask_of_err p h]

/-- C5: the claim as stated is false — in a parallel process whose single
critical task fails, the failure is recorded, but the value at that
task's position is `null`, not an error value. -/
theorem claim_C5_counterexample :
    (pParCrit.run []).fst = [JSVal.js_null]
    ∧ (pParCrit.run []).fst.map isErrVal = [false]
    ∧ (pParCrit.run []).snd.snd.failures.length = 1 := by
  decide

/-- C5 witness: the amended order-independence clause applied to scenario
B under the reversed completion schedule. -/
theorem claim_C5_witness :
    (runParallel [] pScenB [1, 0]).fst
      = pScenB.tasks.map (fun t => settledValue [] t JSVal.js_null) :=
  claim_C5_amended.1 [] pScenB [1, 0] (by decide)
    (fun i hi => by
      have h2 : i < 2 := by simpa [pScenB] using hi
      interval_cases i <;> decide)

/-- C6 (confirmed): no exception escapes `Process.run()`: `executeTask`
converts every throw of `task.execute` into an ordinary returned value
(`null` for a critical task, the error object otherwise) while appending
the failure to the `failures` log, and `run` — in either mode — only ever
appends to the two logs and returns normally, so all failure information
reaches the caller through the returned results and the `failures` log. -/
theorem claim_C6 :
    (∀ (p : CustomProcess) (σ σ2 : Heap) (t : Task) (v : JSVal)
      (e : String), t.execute σ v = (Except.error e, σ2) →
      p.executeTask σ t v
        = ((if t.critical then JSVal.js_null else JSVal.js_err e), σ2,
          { p with failures := p.failures ++ [failureMsg p e] }))
    ∧ (∀ (p : CustomProcess) (σ : Heap), ∃ δh δf,
        (p.run σ).snd.snd.executionHistory = p.executionHistory ++ δh ∧
        (p.run σ).snd.snd.failures = p.failures ++ δf) := by
  constructor
  · intro p σ σ2 t v e h
    exact executeTask_of_err p h
  · intro p σ
    cases hpar : p.isParallel with
    | true =>
      have hrun : p.run σ
          = runParallel σ p (List.range p.tasks.length) := by
        rw [CustomProcess.run, hpar]
        simp
      rw [hrun, runParallel]
      rcases runParAux_hist_mono (List.range p.tasks.length) σ p p.tasks with
        ⟨δh, hh⟩
      rcases runParAux_fail_mono (List.range p.tasks.length) σ p p.tasks with
        ⟨δf, hf⟩
      exact ⟨δh, δf, hh, hf⟩
    | false =>
      have hrun : p.run σ = runSeqAux σ p JSVal.js_null p.tasks := by
        rw [CustomProcess.run, hpar]
        simp
      rw [hrun]
      rcases runSeqAux_hist_mono p.tasks σ p JSVal.js_null with ⟨δh, hh, _⟩
      rcases runSeqAux_fail_mono p.tasks σ p JSVal.js_null with ⟨δf, hf⟩
      exact ⟨δh, δf, hh, hf⟩

/-- C6 witness: the catch clause applied to the concrete critical failing
task. -/
theorem claim_C6_witness :
    pScenC.executeTask [] tBoom (JSVal.js_str "one done")
      = ((if tBoom.critical then JSVal.js_null
          else JSVal.js_err "boom"), [],
        { pScenC with
          failures := pScenC.failures ++ [failureMsg pScenC "boom"] }) :=
  claim_C6.1 pScenC [] [] tBoom (JSVal.js_str "one done") "boom" rfl

/-- C7 (confirmed): in a sequential run the attempted tasks form an
initial segment of the task list, in list order; each attempted task
receives as its input exactly the value the previous attempted task
settled to (the first receives `null`); and this instrumented trace is
faithful: projecting its settled values (without the breaking step)
reproduces `runSeqAux`, heap and process state included. -/
theorem claim_C7 (σ : Heap) (p : CustomProcess) (ts : List Task) :
    Chained JSVal.js_null (runSeqTrace σ p JSVal.js_null ts).fst
    ∧ (∃ k, (runSeqTrace σ p JSVal.js_null ts).fst.map StepRec.desc
        = (ts.take k).map Task.description)
    ∧ (runSeqAux σ p JSVal.js_null ts).fst
        = ((runSeqTrace σ p JSVal.js_null ts).fst.filter pushedB).map
            StepRec.output
    ∧ (runSeqAux σ p JSVal.js_null ts).snd
        = (runSeqTrace σ p JSVal.js_null ts).snd := by
  refine ⟨runSeqTrace_chained ts σ p JSVal.js_null,
    runSeqTrace_descs ts σ p JSVal.js_null,
    (runSeqTrace_consistent ts σ p JSVal.js_null).1,
    (runSeqTrace_consistent ts σ p JSVal.js_null).2⟩

/-- C7 witness: the theorem applied to the concrete scenario-C process. -/
theorem claim_C7_witness :
    Chained JSVal.js_null
      (runSeqTrace [] pScenC JSVal.js_null pScenC.tasks).fst :=
  (claim_C7 [] pScenC pScenC.tasks).1

/-- C8 (confirmed): `execute(input)` invokes `runFunction(input)` and then
threads the resulting value through the operations of the task's tools in
list order — each tool's output becoming the next tool's input — and
returns the final value (stated for a task with no limits configured and
validly referenced, pairwise-distinctly named tools, so each loop
iteration's name lookup resolves to the iterated tool itself); in the
concrete scenario A, the task with base result `"hello"` and the `UPPER`
tool attached under limit 3 executes to `"HELLO"`. -/
theorem claim_C8 :
    (∀ (t : Task) (σ : Heap) (input : JSVal),
      t.toolLimits = [] →
      (∀ r ∈ t.tools, (List.get? σ r).isSome = true) →
      (∀ r₁ ∈ t.tools, ∀ r₂ ∈ t.tools,
        nameAt σ r₁ = nameAt σ r₂ → r₁ = r₂) →
      (t.execute σ input).fst =
        (match t.runFunction input with
        | Except.error e => Except.error e
        | Except.ok v => chainOps σ t.tools v))
    ∧ (tScenA.execute heapU JSVal.js_null).fst
        = Except.ok (JSVal.js_str "HELLO") := by
  constructor
  · intro t σ input hlim hvalid hinj
    exact execute_chain t σ input hlim hvalid hinj
  · rfl

/-- C8 witness: the pipeline clause applied to the unlimited variant of
the scenario-A task over the fresh `UPPER` heap. -/
theorem claim_C8_witness :
    (tNoLim.execute heapU JSVal.js_null).fst =
      (match tNoLim.runFunction JSVal.js_null with
      | Except.error e => Except.error e
      | Except.ok v => chainOps heapU tNoLim.tools v) :=
  claim_C8.1 tNoLim heapU JSVal.js_null rfl (by decide)
    (by
      intro r₁ h₁ r₂ h₂ _
      have e₁ : r₁ = 0 := by simpa [tNoLim, mkTask] using h₁
      have e₂ : r₂ = 0 := by simpa [tNoLim, mkTask] using h₂
      rw [e₁, e₂])

/-- C9 (confirmed): in sequential mode a critical task that succeeds but
settles to `null` halts the run exactly as a failed critical task would:
the loop breaks at the `result === null && task.critical` test, the
`null` is not appended to `results`, every subsequent task is skipped
(the tail is irrelevant to the whole outcome), yet the task's success
marker is logged and nothing is recorded in `failures`. -/
theorem claim_C9 (tc : Task) (hcrit : tc.critical = true)
    (hok : ∀ σ' v, tc.execute σ' v = (Except.ok JSVal.js_null, σ'))
    (ts : List Task) (σ : Heap) (p : CustomProcess) (prev : JSVal) :
    runSeqAux σ p prev (tc :: ts)
        = ([], σ, { p with
            executionHistory := p.executionHistory ++ [markerOf tc] })
    ∧ ((pNullCrit.run []).fst = [JSVal.js_str "one done"]
      ∧ (pNullCrit.run []).snd.snd.executionHistory
          = [markerOf tOne, markerOf tNullCrit]
      ∧ (pNullCrit.run []).snd.snd.failures = []) := by
  refine ⟨runSeq_null_crit tc hcrit hok ts σ p prev, by decide, by decide,
    by decide⟩

/-- C9 witness: the theorem applied to the concrete critical
null-settling task with the scenario's tail. -/
theorem claim_C9_witness :
    runSeqAux [] pNullCrit JSVal.js_null (tNullCrit :: [tThree])
      = ([], [], { pNullCrit with
          executionHistory
            := pNullCrit.executionHistory ++ [markerOf tNullCrit] }) :=
  (claim_C9 tNullCrit rfl (fun _ _ => rfl) [tThree] [] pNullCrit
    JSVal.js_null).1

/-- C10 (confirmed): a tool limit set to 0 is treated as no limit at all:
the guard first tests the configured limit for truthiness, so a
configured limit of `0` never raises the limit-exceeded error — every
`useTool` call on a found tool proceeds to increment-and-run — and the
tool can be invoked any number of times: `n` consecutive invocations
under `setToolLimit("UPPER", 0)` all succeed, leaving the usage count at
`n`. -/
theorem claim_C10 :
    (∀ (t : Task) (σ : Heap) (toolName : String) (input : JSVal)
      (r : Nat) (tool : ToolObj),
      lookupLimit t.toolLimits toolName = some 0 →
      findTool σ t.tools toolName = some (r, tool) →
      t.useTool σ toolName input
        = (tool.run input,
          heapSet σ r { tool with usageCount := tool.usageCount + 1 }))
    ∧ (∀ n c, useRepeatedly tLim0 "UPPER" (JSVal.js_str "a") n (heapUC c)
        = some (heapUC (c + n)))
    ∧ lookupLimit tLim0.toolLimits "UPPER" = some 0 := by
  refine ⟨?_, useRepeatedly_lim0, rfl⟩
  intro t σ toolName input r tool hL hfind
  exact useTool_success t σ toolName input r tool hfind
    (limitBlocks_zero t.toolLimits toolName tool.usageCount hL)

/-- C10 witness: the no-limit clause applied to the limit-0 task over the
fresh `UPPER` heap. -/
theorem claim_C10_witness :
    tLim0.useTool heapU "UPPER" (JSVal.js_str "a")
      = ((⟨"UPPER", upperOp, 0⟩ : ToolObj).run (JSVal.js_str "a"),
        heapSet heapU 0 ⟨"UPPER", upperOp, 1⟩) :=
  claim_C10.1 tLim0 heapU "UPPER" (JSVal.js_str "a") 0
    ⟨"UPPER", upperOp, 0⟩ rfl rfl

end VanillaAgents
